import Mathlib

/-!
Verification development for the BusTub buffer-pool core: the buffer pool
manager (buffer_pool_manager.cpp), the LRU-K replacer (lru_k_replacer.cpp)
and the disk scheduler worker (disk_scheduler.cpp), shallowly embedded as
executable Lean definitions.  Latches are omitted (the model is the
single-threaded semantics of each operation under the pool latch).
C++ ints are modelled as Int (page ids) and Nat (frame ids, timestamps);
page payloads are byte lists of length BUSTUB_PAGE_SIZE.
-/

/-- Modelled from the spec: PAGE_SIZE, the fixed byte length of all pages
and frame buffers (the constant lives in a header that is not part of the
sources; BusTub uses 4096). -/
def BUSTUB_PAGE_SIZE : Nat := 4096

/-- Modelled from the spec: the reserved sentinel page id. -/
def INVALID_PAGE_ID : Int := -1

/-- A zero-filled page buffer, the result of Page::ResetMemory. -/
def zeroData : List Nat := List.replicate BUSTUB_PAGE_SIZE 0

/-- Modelled from the spec: an LRU-K node holds the frame id, the
evictability flag (false on first record) and a bounded queue of the most
recent K access timestamps, oldest first (the LRUKNode class lives in
lru_k_replacer.h, which is not among the sources). -/
structure LRUKNode where
  frame : Nat
  history : List Nat
  evictable : Bool
deriving DecidableEq

/-- Modelled from the spec: the eviction-priority key of a node.  A node
with fewer than K recorded accesses has backward K-distance plus-infinity
(first key component 0) and is ranked by its earliest recorded access; a
node with K accesses is ranked after all infinite nodes (first component 1)
by its K-th most recent timestamp, smaller meaning higher victim priority. -/
def nodeKey (k : Nat) (nd : LRUKNode) : Nat × Nat :=
  if nd.history.length < k then (0, nd.history.headD 0)
  else (1, nd.history.getD (nd.history.length - k) 0)

/-- Strict lexicographic order on priority keys. -/
def keyLTb (p q : Nat × Nat) : Bool :=
  p.1 < q.1 || (p.1 == q.1 && p.2 < q.2)

/-- Non-strict companion of keyLTb. -/
def keyLEb (p q : Nat × Nat) : Bool := !(keyLTb q p)

/-- Modelled from the spec: LRUKNode::operator<.  N1 < N2 iff N1 has the
greater eviction priority: both infinite and the earliest timestamp of N1
is earlier, or N1 infinite and N2 finite, or both finite and the K-th most
recent timestamp of N1 is earlier. -/
def nodeLTb (k : Nat) (a b : LRUKNode) : Bool :=
  keyLTb (nodeKey k a) (nodeKey k b)

/-- Non-strict node comparison, used to state sortedness of the node list. -/
def nodeLE (k : Nat) (a b : LRUKNode) : Bool :=
  keyLEb (nodeKey k a) (nodeKey k b)

/-- Modelled from the spec: LRUKNode::PushHistory pushes the current
timestamp, evicting the oldest entry when the history already holds K. -/
def pushHistory (k : Nat) (nd : LRUKNode) (ts : Nat) : LRUKNode :=
  { nd with history :=
      if nd.history.length < k then nd.history ++ [ts]
      else nd.history.tail ++ [ts] }

/-- State of LRUKReplacer: history depth k_, capacity replacer_size_,
curr_size_, current_timestamp_, and node_list_ kept in eviction priority
order (highest-priority victim first).  node_store_ maps a frame id to its
position of the node of a frame and is derivable from the list, so it is
not duplicated. -/
structure LRUKReplacer where
  k : Nat
  replacerSize : Nat
  currSize : Nat
  ts : Nat
  nodes : List LRUKNode
deriving DecidableEq

/-- LRUKReplacer constructor. -/
def LRUKReplacer.init (numFrames k : Nat) : LRUKReplacer :=
  { k := k, replacerSize := numFrames, currSize := 0, ts := 0, nodes := [] }

/-- LRUKReplacer::Insert: scan forward from a position (here: the suffix of
node_list_ starting at that position) while the scanned node is less than
the inserted one, and insert there; the caller re-prepends the prefix. -/
def insertNode (k : Nat) : List LRUKNode → LRUKNode → List LRUKNode
  | [], n => [n]
  | x :: xs, n => if nodeLTb k x n then x :: insertNode k xs n else n :: x :: xs

/-- LRUKReplacer::Evict: walk node_list_ front to back; the first evictable
node is the victim, it is erased from list and store, curr_size_ is
decremented and true is returned (here: some frame).  With no evictable
node, false (none) is returned and the state is left as is. -/
def LRUKReplacer.Evict (s : LRUKReplacer) : Option Nat × LRUKReplacer :=
  match s.nodes.dropWhile (fun nd => !nd.evictable) with
  | [] => (none, s)
  | v :: post =>
      (some v.frame,
        { s with nodes := s.nodes.takeWhile (fun nd => !nd.evictable) ++ post,
                 currSize := s.currSize - 1 })

/-- Node-list effect of LRUKReplacer::RecordAccess.  A frame with no node
gets a fresh non-evictable node carrying the current timestamp, inserted by
priority from the front.  An existing node is re-inserted with the
timestamp pushed, scanning from its own old position (the source passes
the iterator of the node to Insert), after which the old copy is erased: when
the old node compares less than the updated one the scan moves past it
into the suffix, otherwise the updated node lands directly in its place. -/
def recordNodes (k ts : Nat) (nodes : List LRUKNode) (f : Nat) : List LRUKNode :=
  match nodes.dropWhile (fun nd => nd.frame != f) with
  | [] => insertNode k nodes { frame := f, history := [ts], evictable := false }
  | old :: post =>
      nodes.takeWhile (fun nd => nd.frame != f) ++
        (if nodeLTb k old (pushHistory k old ts) then insertNode k post (pushHistory k old ts)
         else pushHistory k old ts :: post)

/-- LRUKReplacer::RecordAccess: update the node list, increment
current_timestamp_, and if the node count exceeds replacer_size_
immediately evict one node. -/
def LRUKReplacer.RecordAccess (s : LRUKReplacer) (f : Nat) : LRUKReplacer :=
  if (recordNodes s.k s.ts s.nodes f).length > s.replacerSize then
    (LRUKReplacer.Evict { s with nodes := recordNodes s.k s.ts s.nodes f, ts := s.ts + 1 }).2
  else { s with nodes := recordNodes s.k s.ts s.nodes f, ts := s.ts + 1 }

/-- LRUKReplacer::SetEvictable: on a tracked frame, flip the flag and
adjust curr_size_ on transitions; no-op on an unknown frame. -/
def LRUKReplacer.SetEvictable (s : LRUKReplacer) (f : Nat) (b : Bool) : LRUKReplacer :=
  match s.nodes.dropWhile (fun nd => nd.frame != f) with
  | [] => s
  | old :: post =>
      let newSize :=
        if !old.evictable && b then s.currSize + 1
        else if old.evictable && !b then s.currSize - 1
        else s.currSize
      { s with
          nodes := s.nodes.takeWhile (fun nd => nd.frame != f) ++
                     { old with evictable := b } :: post,
          currSize := newSize }

/-- LRUKReplacer::Remove: untracked frame is a no-op; a tracked
non-evictable frame trips BUSTUB_ASSERT (modelled as none); otherwise the
node is erased and curr_size_ decremented. -/
def LRUKReplacer.Remove (s : LRUKReplacer) (f : Nat) : Option LRUKReplacer :=
  match s.nodes.dropWhile (fun nd => nd.frame != f) with
  | [] => some s
  | old :: post =>
      if old.evictable then
        some { s with nodes := s.nodes.takeWhile (fun nd => nd.frame != f) ++ post,
                      currSize := s.currSize - 1 }
      else none

/-- LRUKReplacer::Size. -/
def LRUKReplacer.Size (s : LRUKReplacer) : Nat := s.currSize

/-- The Page class: id of the occupying page, pin count, dirty bit, and the
byte buffer. -/
structure Page where
  pageId : Int
  pinCount : Nat
  isDirty : Bool
  data : List Nat
deriving DecidableEq

/-- A default-constructed Page: ResetMemory zeroes the buffer, id is
INVALID_PAGE_ID, pin count 0, not dirty. -/
def initPage : Page :=
  { pageId := INVALID_PAGE_ID, pinCount := 0, isDirty := false, data := zeroData }

/-- BufferPoolManager::ResetPage: zero the memory and reset the metadata. -/
def resetPage (pid : Int) : Page :=
  { pageId := pid, pinCount := 0, isDirty := false, data := zeroData }

/-- Functional update of the frame array pages_.  The C++ array has
pool_size cells; a total function is used so that the out-of-bounds write
performed by NewPage (see NewPageWriteIdx) remains expressible. -/
def writeFrame (pages : Nat → Page) (i : Nat) (p : Page) : Nat → Page :=
  fun j => if j = i then p else pages j

/-- page_table_ lookup (std::unordered_map find). -/
def ptLookup : List (Int × Nat) → Int → Option Nat
  | [], _ => none
  | (q, f) :: r, p => if q = p then some f else ptLookup r p

/-- page_table_ insert-or-assign (operator[]). -/
def ptInsert : List (Int × Nat) → Int → Nat → List (Int × Nat)
  | [], p, f => [(p, f)]
  | (q, g) :: r, p, f => if q = p then (p, f) :: r else (q, g) :: ptInsert r p f

/-- page_table_ erase. -/
def ptErase : List (Int × Nat) → Int → List (Int × Nat)
  | [], _ => []
  | (q, g) :: r, p => if q = p then r else (q, g) :: ptErase r p

/-- Modelled from the spec: the block device behind the disk scheduler
(DiskManager is external to the sources).  Pages never written read as
zeroes. -/
def diskWrite (d : Int → List Nat) (pid : Int) (b : List Nat) : Int → List Nat :=
  fun q => if q = pid then b else d q

/-- BufferPoolManager state: pool_size_, the frame array pages_, page_table_,
free_list_, the replacer, the page-id allocator next_page_id_, and the
backing disk reached through the scheduler.  WritePageToDisk and
ReadPageFromDisk schedule one request and wait on its completion, so in the
single-threaded model they act directly on the disk map. -/
structure BufferPoolManager where
  poolSize : Nat
  pages : Nat → Page
  pageTable : List (Int × Nat)
  freeList : List Nat
  replacer : LRUKReplacer
  nextPageId : Int
  disk : Int → List Nat

/-- BufferPoolManager constructor: all frames default-constructed and on the
free list in index order. -/
def BufferPoolManager.init (poolSize k : Nat) : BufferPoolManager :=
  { poolSize := poolSize
    pages := fun _ => initPage
    pageTable := []
    freeList := List.range poolSize
    replacer := LRUKReplacer.init poolSize k
    nextPageId := 0
    disk := fun _ => zeroData }

/-- BufferPoolManager::NewPage.  Free-list branch: pop the front frame,
record access, allocate the id, install the mapping, perform the write
pages_[*page_id].page_id_ = *page_id found in the source (an index by page
id), reset the
frame, pin it.  Eviction branch: on a victim, write it back if dirty, erase
its old mapping, reset, install the new mapping, pin, record access. -/
def BufferPoolManager.NewPage (s : BufferPoolManager) :
    Option ((Int × Nat) × BufferPoolManager) :=
  match s.freeList with
  | fid :: rest =>
      let rep := s.replacer.RecordAccess fid
      let pid := s.nextPageId
      let pt := ptInsert s.pageTable pid fid
      let pages1 := writeFrame s.pages pid.toNat { s.pages pid.toNat with pageId := pid }
      let pages2 := writeFrame pages1 fid (resetPage pid)
      let pages3 := writeFrame pages2 fid { pages2 fid with pinCount := 1 }
      some ((pid, fid),
        { s with freeList := rest, replacer := rep, pageTable := pt,
                 pages := pages3, nextPageId := pid + 1 })
  | [] =>
      match s.replacer.Evict with
      | (some rf, rep1) =>
          let victim := s.pages rf
          let disk1 := if victim.isDirty then diskWrite s.disk victim.pageId victim.data
                       else s.disk
          let pid := s.nextPageId
          let pt1 := ptErase s.pageTable victim.pageId
          let pages1 := writeFrame s.pages rf (resetPage pid)
          let pt2 := ptInsert pt1 pid rf
          let pages2 := writeFrame pages1 rf { pages1 rf with pinCount := 1 }
          let rep2 := rep1.RecordAccess rf
          some ((pid, rf),
            { s with pages := pages2, pageTable := pt2, replacer := rep2,
                     disk := disk1, nextPageId := pid + 1 })
      | (none, _) => none

/-- The pages_ indices that BufferPoolManager::NewPage writes through in the
branch it would take from the given state: on the free-list branch the
source writes pages_[*page_id] (the stray page-id index) and
pages_[frame_id]; on the eviction branch only pages_[replaced_frame]. -/
def BufferPoolManager.NewPageWriteIdx (s : BufferPoolManager) : List Nat :=
  match s.freeList with
  | fid :: _ => [s.nextPageId.toNat, fid]
  | [] =>
      match s.replacer.Evict with
      | (some rf, _) => [rf]
      | (none, _) => []

/-- BufferPoolManager::FetchPage.  Hit: record access, return the frame
(the source does not touch pin_count_ here).  Miss with a free frame: pop
it, record access, reset to the requested id, pin, install mapping, read
from disk.  Miss with a victim: write back if dirty, reset the frame to the
new id, then erase page.page_id_ from the table (the reference now reads
the new id), install the new mapping, pin, record access, read from disk. -/
def BufferPoolManager.FetchPage (s : BufferPoolManager) (pid : Int) :
    Option (Nat × BufferPoolManager) :=
  match ptLookup s.pageTable pid with
  | some fid => some (fid, { s with replacer := s.replacer.RecordAccess fid })
  | none =>
      match s.freeList with
      | fid :: rest =>
          let rep := s.replacer.RecordAccess fid
          let pages1 := writeFrame s.pages fid (resetPage pid)
          let pages2 := writeFrame pages1 fid { pages1 fid with pinCount := 1 }
          let pt := ptInsert s.pageTable pid fid
          let pages3 := writeFrame pages2 fid { pages2 fid with data := s.disk pid }
          some (fid, { s with freeList := rest, replacer := rep,
                              pages := pages3, pageTable := pt })
      | [] =>
          match s.replacer.Evict with
          | (some rf, rep1) =>
              let victim := s.pages rf
              let disk1 := if victim.isDirty then diskWrite s.disk victim.pageId victim.data
                           else s.disk
              let pages1 := writeFrame s.pages rf (resetPage pid)
              let pt1 := ptErase s.pageTable (pages1 rf).pageId
              let pt2 := ptInsert pt1 pid rf
              let pages2 := writeFrame pages1 rf { pages1 rf with pinCount := 1 }
              let rep2 := rep1.RecordAccess rf
              let pages3 := writeFrame pages2 rf { pages2 rf with data := disk1 pid }
              some (rf, { s with pages := pages3, pageTable := pt2,
                                 replacer := rep2, disk := disk1 })
          | (none, _) => none

/-- BufferPoolManager::UnpinPage: false on a non-resident page or a pin
count already at zero; otherwise OR the dirty bit with is_dirty, decrement
the pin count, and mark the frame evictable when it reaches zero. -/
def BufferPoolManager.UnpinPage (s : BufferPoolManager) (pid : Int) (isDirty : Bool) :
    Bool × BufferPoolManager :=
  match ptLookup s.pageTable pid with
  | none => (false, s)
  | some fid =>
      let page := s.pages fid
      if page.pinCount = 0 then (false, s)
      else
        let page1 := { page with isDirty := isDirty || page.isDirty,
                                 pinCount := page.pinCount - 1 }
        let s1 := { s with pages := writeFrame s.pages fid page1 }
        if page1.pinCount = 0 then
          (true, { s1 with replacer := s1.replacer.SetEvictable fid true })
        else (true, s1)

/-- BufferPoolManager::FlushPage: unconditional write-back of a resident
page, clearing the dirty bit. -/
def BufferPoolManager.FlushPage (s : BufferPoolManager) (pid : Int) :
    Bool × BufferPoolManager :=
  match ptLookup s.pageTable pid with
  | none => (false, s)
  | some fid =>
      let page := s.pages fid
      (true, { s with disk := diskWrite s.disk page.pageId page.data,
                      pages := writeFrame s.pages fid { page with isDirty := false } })

/-- BufferPoolManager::DeletePage: a non-resident page returns false with
no state change; a pinned page returns false; otherwise flush if dirty,
erase the mapping, remove the frame from the replacer (none models the
fatal assertion inside Remove), reset the frame and push it on the back of
the free list. -/
def BufferPoolManager.DeletePage (s : BufferPoolManager) (pid : Int) :
    Option (Bool × BufferPoolManager) :=
  match ptLookup s.pageTable pid with
  | none => some (false, s)
  | some fid =>
      let page := s.pages fid
      if page.pinCount ≠ 0 then some (false, s)
      else
        let disk1 := if page.isDirty then diskWrite s.disk page.pageId page.data else s.disk
        let pt := ptErase s.pageTable pid
        match s.replacer.Remove fid with
        | none => none
        | some rep =>
            some (true,
              { s with disk := disk1, pageTable := pt, replacer := rep,
                       pages := writeFrame s.pages fid (resetPage INVALID_PAGE_ID),
                       freeList := s.freeList ++ [fid] })

/-- Public pool operations, plus the write of bytes the caller performs
through the returned frame pointer, as in the round-trip law of the spec. -/
inductive BPOp where
  | newP : BPOp
  | fetch (pid : Int) : BPOp
  | unpin (pid : Int) (d : Bool) : BPOp
  | flush (pid : Int) : BPOp
  | del (pid : Int) : BPOp
  | writeData (fid : Nat) (b : List Nat) : BPOp

/-- Apply one operation, keeping the state on a failed or aborted call. -/
def applyOp (s : BufferPoolManager) : BPOp → BufferPoolManager
  | .newP => match s.NewPage with | some (_, s') => s' | none => s
  | .fetch pid => match s.FetchPage pid with | some (_, s') => s' | none => s
  | .unpin pid d => (s.UnpinPage pid d).2
  | .flush pid => (s.FlushPage pid).2
  | .del pid => match s.DeletePage pid with | some (_, s') => s' | none => s
  | .writeData fid b =>
      { s with pages := writeFrame s.pages fid { s.pages fid with data := b } }

/-- Run a sequence of operations. -/
def runOps (s : BufferPoolManager) (l : List BPOp) : BufferPoolManager :=
  l.foldl applyOp s

/-- A disk request: direction, buffer contents, target page id.  The
one-shot completion signal is modelled as the Bool the worker fires. -/
structure DiskRequest where
  isWrite : Bool
  data : List Nat
  pageId : Int
deriving DecidableEq

/-- Modelled from the spec: the DiskManager block abstraction (external to
the sources), with a per-page failure predicate since reads and writes may
return errors. -/
structure DiskManager where
  store : Int → List Nat
  fails : Int → Bool

/-- The body of DiskScheduler::StartWorkerThread for one dequeued request:
perform the read or write through the block abstraction, then fire the
completion signal of the request with the literal true.  Output: device after
the call, buffer contents after the call, and the fired signal value. -/
def DiskScheduler.processRequest (dm : DiskManager) (r : DiskRequest) :
    DiskManager × List Nat × Bool :=
  if r.isWrite then
    (if dm.fails r.pageId then dm
     else { dm with store := fun q => if q = r.pageId then r.data else dm.store q },
     r.data, true)
  else
    (dm, if dm.fails r.pageId then r.data else dm.store r.pageId, true)

/-- The node list is sorted when every earlier node compares nodeLE with
every later one, so that the front-to-back eviction scan meets victims in
priority order. -/
def SortedNodes (k : Nat) (l : List LRUKNode) : Prop :=
  l.Pairwise (fun a b => nodeLE k a b = true)

/-- Per-node history well-formedness: nonempty, at most K entries, strictly
increasing, and all entries below the current timestamp. -/
def HistOK (k ts : Nat) (nd : LRUKNode) : Prop :=
  nd.history ≠ [] ∧ nd.history.length ≤ k ∧
    nd.history.Chain' (· < ·) ∧ ∀ t ∈ nd.history, t < ts

/-- Replacer invariant: the node list is in priority order and all
histories are well formed. -/
def RInv (s : LRUKReplacer) : Prop :=
  SortedNodes s.k s.nodes ∧ ∀ nd ∈ s.nodes, HistOK s.k s.ts nd

/-- One public replacer operation (an aborted Remove has no successor). -/
inductive RStep : LRUKReplacer → LRUKReplacer → Prop where
  | record (s : LRUKReplacer) (f : Nat) : RStep s (s.RecordAccess f)
  | setEv (s : LRUKReplacer) (f : Nat) (b : Bool) : RStep s (s.SetEvictable f b)
  | evict (s : LRUKReplacer) : RStep s (s.Evict).2
  | remove (s s' : LRUKReplacer) (f : Nat) : s.Remove f = some s' → RStep s s'

/-- Replacer states reachable from the constructor LRUKReplacer(n, k) by
public operations. -/
inductive RReachable (k n : Nat) : LRUKReplacer → Prop where
  | init : RReachable k n (LRUKReplacer.init n k)
  | step {s s' : LRUKReplacer} : RReachable k n s → RStep s s' → RReachable k n s'

/-- Pool of one frame, K deep two, after one NewPage: page 0 pinned in
frame 0. -/
def hitPool : BufferPoolManager :=
  runOps (BufferPoolManager.init 1 2) [BPOp.newP]

/-- Pool of one frame after NewPage, UnpinPage(0, clean) and a FetchPage(1)
that evicts frame 0. -/
def aliasPool : BufferPoolManager :=
  runOps (BufferPoolManager.init 1 2) [BPOp.newP, BPOp.unpin 0 false, BPOp.fetch 1]

/-- Pool of one frame after NewPage, UnpinPage(0, clean) and DeletePage(0):
frame 0 is back on the free list and the next page id is 1. -/
def delFreedPool : BufferPoolManager :=
  runOps (BufferPoolManager.init 1 2) [BPOp.newP, BPOp.unpin 0 false, BPOp.del 0]

/-- The round-trip payload: 0xAB repeated over the page. -/
def bytesAB : List Nat := List.replicate BUSTUB_PAGE_SIZE 171

/-- Pool of one frame after NewPage and the caller writing bytesAB into
frame 0. -/
def dirtyPool : BufferPoolManager :=
  runOps (BufferPoolManager.init 1 2) [BPOp.newP, BPOp.writeData 0 bytesAB]

/-- dirtyPool after UnpinPage(0, dirty) and a FetchPage(1) that evicts
frame 0 (writing bytesAB back to disk page 0). -/
def roundTripPool : BufferPoolManager :=
  runOps dirtyPool [BPOp.unpin 0 true, BPOp.fetch 1]

/-- Replacer over three frames with K = 2 after accesses to frames 0 and 1
and marking frame 0 evictable. -/
def evictDemo : LRUKReplacer :=
  (((LRUKReplacer.init 3 2).RecordAccess 0).RecordAccess 1).SetEvictable 0 true

/-- Replacer over three frames with K = 2 after accesses in order
A, B, A, C (A = 0, B = 1, C = 2) with all three frames made evictable. -/
def lrukScenario : LRUKReplacer :=
  (((((((LRUKReplacer.init 3 2).RecordAccess 0).RecordAccess 1).RecordAccess
    0).RecordAccess 2).SetEvictable 0 true).SetEvictable 1 true).SetEvictable 2 true

/-- A block device whose operations fail on every page. -/
def failingDisk : DiskManager :=
  { store := fun _ => zeroData, fails := fun _ => true }

/-- A write request for page 0. -/
def writeRequest : DiskRequest :=
  { isWrite := true, data := bytesAB, pageId := 0 }

/-! ### Order facts about priority keys and nodes -/

/-- keyLTb decides the strict lexicographic order. -/
theorem keyLTb_iff (p q : Nat × Nat) :
    keyLTb p q = true ↔ p.1 < q.1 ∨ (p.1 = q.1 ∧ p.2 < q.2) := by
  simp [keyLTb]

/-- keyLEb decides the companion non-strict order. -/
theorem keyLEb_iff (p q : Nat × Nat) :
    keyLEb p q = true ↔ p.1 < q.1 ∨ (p.1 = q.1 ∧ p.2 ≤ q.2) := by
  simp [keyLEb, keyLTb]
  omega

/-- keyLEb is reflexive. -/
theorem keyLEb_refl (p : Nat × Nat) : keyLEb p p = true := by
  rw [keyLEb_iff]; omega

/-- keyLEb is transitive. -/
theorem keyLEb_trans {p q r : Nat × Nat} (h1 : keyLEb p q = true)
    (h2 : keyLEb q r = true) : keyLEb p r = true := by
  rw [keyLEb_iff] at *; omega

/-- A strict comparison yields the non-strict one. -/
theorem keyLEb_of_keyLTb {p q : Nat × Nat} (h : keyLTb p q = true) :
    keyLEb p q = true := by
  rw [keyLTb_iff] at h; rw [keyLEb_iff]; omega

/-- A failed strict comparison yields the reverse non-strict one. -/
theorem keyLEb_of_not_keyLTb {p q : Nat × Nat} (h : keyLTb p q = false) :
    keyLEb q p = true := by
  simp [keyLEb, h]

/-- nodeLE from a successful nodeLTb comparison. -/
theorem nodeLE_of_lt {k : Nat} {a b : LRUKNode} (h : nodeLTb k a b = true) :
    nodeLE k a b = true :=
  keyLEb_of_keyLTb h

/-- nodeLE (reversed) from a failed nodeLTb comparison. -/
theorem nodeLE_of_not_lt {k : Nat} {a b : LRUKNode} (h : nodeLTb k a b = false) :
    nodeLE k b a = true :=
  keyLEb_of_not_keyLTb h

/-- nodeLE is transitive. -/
theorem nodeLE_trans {k : Nat} {a b c : LRUKNode} (h1 : nodeLE k a b = true)
    (h2 : nodeLE k b c = true) : nodeLE k a c = true :=
  keyLEb_trans h1 h2

/-- nodeLE only looks at the priority keys (left argument). -/
theorem nodeLE_congr_left {k : Nat} {a a' b : LRUKNode}
    (h : nodeKey k a = nodeKey k a') : nodeLE k a b = nodeLE k a' b := by
  simp [nodeLE, h]

/-- nodeLE only looks at the priority keys (right argument). -/
theorem nodeLE_congr_right {k : Nat} {a b b' : LRUKNode}
    (h : nodeKey k b = nodeKey k b') : nodeLE k a b = nodeLE k a b' := by
  simp [nodeLE, h]

/-- Raising the timestamp bound preserves history well-formedness. -/
theorem HistOK.mono {k ts ts' : Nat} {nd : LRUKNode} (h : HistOK k ts nd)
    (hts : ts ≤ ts') : HistOK k ts' nd :=
  ⟨h.1, h.2.1, h.2.2.1, fun t ht => lt_of_lt_of_le (h.2.2.2 t ht) hts⟩

/-- HistOK only depends on the history. -/
theorem HistOK.congr {k ts : Nat} {nd nd' : LRUKNode} (h : HistOK k ts nd)
    (he : nd'.history = nd.history) : HistOK k ts nd' := by
  rw [HistOK, he]; exact h

/-- Membership in the result of insertNode. -/
theorem mem_insertNode {k : Nat} {n m : LRUKNode} :
    ∀ {l : List LRUKNode}, m ∈ insertNode k l n ↔ m = n ∨ m ∈ l := by
  intro l
  induction l with
  | nil => simp [insertNode]
  | cons x xs ih =>
      simp only [insertNode]
      cases hc : nodeLTb k x n
      · simp only [hc, Bool.false_eq_true, if_false, List.mem_cons]
      · simp only [hc, if_true, List.mem_cons, ih]
        tauto

/-- insertNode keeps the node list sorted. -/
theorem insertNode_sorted {k : Nat} {n : LRUKNode} :
    ∀ {l : List LRUKNode}, SortedNodes k l → SortedNodes k (insertNode k l n) := by
  intro l
  induction l with
  | nil => intro _; simp [insertNode, SortedNodes]
  | cons x xs ih =>
      intro h
      obtain ⟨hx, hxs⟩ := List.pairwise_cons.1 h
      simp only [insertNode]
      cases hc : nodeLTb k x n
      · simp only [hc, Bool.false_eq_true, if_false]
        refine List.pairwise_cons.2 ⟨?_, h⟩
        intro m hm
        rcases List.mem_cons.1 hm with rfl | hm'
        · exact nodeLE_of_not_lt hc
        · exact nodeLE_trans (nodeLE_of_not_lt hc) (hx m hm')
      · simp only [hc, if_true]
        refine List.pairwise_cons.2 ⟨?_, ih hxs⟩
        intro m hm
        rcases mem_insertNode.1 hm with rfl | hm'
        · exact nodeLE_of_lt hc
        · exact hx m hm'

/-- The head of a dropWhile result falsifies the predicate. -/
theorem dropWhile_head_false {α : Type} {p : α → Bool} :
    ∀ {l : List α} {x : α} {xs : List α}, l.dropWhile p = x :: xs → p x = false := by
  intro l
  induction l with
  | nil => intro x xs h; simp [List.dropWhile] at h
  | cons a as ih =>
      intro x xs h
      rw [List.dropWhile_cons] at h
      by_cases ha : p a = true
      · exact ih (by simpa [ha] using h)
      · have ha' : p a = false := by revert ha; cases p a <;> simp
        simp only [ha', if_false] at h
        cases h
        exact ha'

/-- When dropWhile returns nothing every element satisfies the predicate. -/
theorem dropWhile_nil_all {α : Type} {p : α → Bool} {l : List α}
    (h : l.dropWhile p = []) : ∀ x ∈ l, p x = true := by
  intro x hx
  have hsplit := List.takeWhile_append_dropWhile p l
  rw [h, List.append_nil] at hsplit
  exact List.mem_takeWhile_imp (by rw [hsplit]; exact hx)

/-- Removing the distinguished middle element preserves sortedness. -/
theorem sorted_erase_middle {k : Nat} {pre post : List LRUKNode} {x : LRUKNode}
    (h : SortedNodes k (pre ++ x :: post)) : SortedNodes k (pre ++ post) := by
  rw [SortedNodes, List.pairwise_append] at h ⊢
  obtain ⟨h1, h2, h3⟩ := h
  exact ⟨h1, (List.pairwise_cons.1 h2).2,
    fun a ha b hb => h3 a ha b (List.mem_cons_of_mem _ hb)⟩

/-- Replacing the middle element by one with the same key preserves
sortedness. -/
theorem sorted_replace_middle {k : Nat} {pre post : List LRUKNode} {x y : LRUKNode}
    (h : SortedNodes k (pre ++ x :: post)) (hkey : nodeKey k y = nodeKey k x) :
    SortedNodes k (pre ++ y :: post) := by
  rw [SortedNodes, List.pairwise_append] at h ⊢
  obtain ⟨h1, h2, h3⟩ := h
  obtain ⟨hx, hpost⟩ := List.pairwise_cons.1 h2
  refine ⟨h1, List.pairwise_cons.2 ⟨?_, hpost⟩, ?_⟩
  · intro m hm
    rw [nodeLE_congr_left hkey]
    exact hx m hm
  · intro a ha b hb
    rcases List.mem_cons.1 hb with rfl | hb'
    · rw [nodeLE_congr_right hkey]
      exact h3 a ha x (List.mem_cons_self x post)
    · exact h3 a ha b (List.mem_cons_of_mem _ hb')

/-! ### Effect of PushHistory on keys and histories -/

/-- Pushing a fresh timestamp never raises the eviction priority of a
node: the key of the updated node is at least the old one. -/
theorem pushHistory_key_mono {k ts : Nat} {nd : LRUKNode}
    (h : HistOK k ts nd) :
    keyLEb (nodeKey k nd) (nodeKey k (pushHistory k nd ts)) = true := by
  obtain ⟨hne, hlen, hch, hbd⟩ := h
  obtain ⟨a, rest, hh⟩ := List.exists_cons_of_ne_nil hne
  have hLL : nd.history.length = rest.length + 1 := by rw [hh]; rfl
  by_cases hl : nd.history.length < k
  · have hp : (pushHistory k nd ts).history = nd.history ++ [ts] := by
      simp [pushHistory, hl]
    by_cases hl2 : nd.history.length + 1 < k
    · have h1 : nodeKey k nd = (0, a) := by rw [nodeKey, if_pos hl, hh]; simp
      have h2 : nodeKey k (pushHistory k nd ts) = (0, a) := by
        rw [nodeKey, hp]
        have hc : (nd.history ++ [ts]).length < k := by
          simp only [List.length_append, List.length_singleton]
          omega
        rw [if_pos hc, hh]
        simp
      rw [h1, h2]
      exact keyLEb_refl _
    · have h1 : nodeKey k nd = (0, a) := by rw [nodeKey, if_pos hl, hh]; simp
      have h2 : (nodeKey k (pushHistory k nd ts)).1 = 1 := by
        rw [nodeKey, hp]
        have hc : ¬(nd.history ++ [ts]).length < k := by
          simp only [List.length_append, List.length_singleton]
          omega
        rw [if_neg hc]
      rw [keyLEb_iff, h1]
      left
      omega
  · have hlk : nd.history.length = k := le_antisymm hlen (le_of_not_lt hl)
    have hp : (pushHistory k nd ts).history = rest ++ [ts] := by
      simp only [pushHistory]
      rw [if_neg hl, hh]
      rfl
    have h1 : nodeKey k nd = (1, a) := by
      rw [nodeKey, if_neg hl]
      have hz : nd.history.length - k = 0 := by omega
      rw [hz, hh]
      simp
    have hrlen : rest.length + 1 = k := by omega
    have h2 : nodeKey k (pushHistory k nd ts) = (1, (rest ++ [ts]).getD 0 0) := by
      rw [nodeKey, hp]
      have hlen2 : (rest ++ [ts]).length = k := by
        simp only [List.length_append, List.length_singleton]
        omega
      rw [hlen2]
      have hirr : ¬k < k := lt_irrefl k
      rw [if_neg hirr]
      simp
    have hle : a ≤ (rest ++ [ts]).getD 0 0 := by
      cases rest with
      | nil =>
          simp only [List.nil_append, List.getD_cons_zero]
          exact le_of_lt (hbd a (by rw [hh]; exact List.mem_cons_self a []))
      | cons b rest' =>
          simp only [List.cons_append, List.getD_cons_zero]
          have hab : a < b := by
            rw [hh] at hch
            exact (List.chain'_cons.1 hch).1
          exact le_of_lt hab
    rw [h1, h2, keyLEb_iff]
    right
    exact ⟨rfl, hle⟩

/-- PushHistory keeps the history well formed at the bumped timestamp. -/
theorem pushHistory_histOK {k ts : Nat} {nd : LRUKNode} (hk : 1 ≤ k)
    (h : HistOK k ts nd) : HistOK k (ts + 1) (pushHistory k nd ts) := by
  obtain ⟨hne, hlen, hch, hbd⟩ := h
  by_cases hl : nd.history.length < k
  · have hp : (pushHistory k nd ts).history = nd.history ++ [ts] := by
      simp [pushHistory, hl]
    refine ⟨by simp [hp], ?_, ?_, ?_⟩
    · rw [hp]; simp; omega
    · rw [hp, List.chain'_append]
      refine ⟨hch, by simp, ?_⟩
      intro x hx y hy
      simp only [List.head?_cons, Option.mem_def, Option.some.injEq] at hy
      subst hy
      exact hbd x (List.mem_of_mem_getLast? hx)
    · intro t ht
      rw [hp] at ht
      rcases List.mem_append.1 ht with h1 | h1
      · exact Nat.lt_succ_of_lt (hbd t h1)
      · simp at h1; omega
  · have hp : (pushHistory k nd ts).history = nd.history.tail ++ [ts] := by
      simp [pushHistory, hl]
    refine ⟨by simp [hp], ?_, ?_, ?_⟩
    · rw [hp]
      simp only [List.length_append, List.length_tail, List.length_cons,
        List.length_nil]
      omega
    · rw [hp, List.chain'_append]
      refine ⟨hch.tail, by simp, ?_⟩
      intro x hx y hy
      simp only [List.head?_cons, Option.mem_def, Option.some.injEq] at hy
      subst hy
      exact hbd x (List.mem_of_mem_tail (List.mem_of_mem_getLast? hx))
    · intro t ht
      rw [hp] at ht
      rcases List.mem_append.1 ht with h1 | h1
      · exact Nat.lt_succ_of_lt (hbd t (List.mem_of_mem_tail h1))
      · simp at h1; omega

/-! ### Invariant preservation by the replacer operations -/

/-- Evict does not change the history depth. -/
theorem Evict_k (s : LRUKReplacer) : (s.Evict).2.k = s.k := by
  unfold LRUKReplacer.Evict
  split <;> rfl

/-- Evict does not change the timestamp. -/
theorem Evict_ts (s : LRUKReplacer) : (s.Evict).2.ts = s.ts := by
  unfold LRUKReplacer.Evict
  split <;> rfl

/-- RecordAccess does not change the history depth. -/
theorem RecordAccess_k (s : LRUKReplacer) (f : Nat) : (s.RecordAccess f).k = s.k := by
  unfold LRUKReplacer.RecordAccess
  split
  · rw [Evict_k]
  · rfl

/-- SetEvictable does not change the history depth. -/
theorem SetEvictable_k (s : LRUKReplacer) (f : Nat) (b : Bool) :
    (s.SetEvictable f b).k = s.k := by
  unfold LRUKReplacer.SetEvictable
  split <;> rfl

/-- Remove does not change the history depth. -/
theorem Remove_k {s s' : LRUKReplacer} {f : Nat} (h : s.Remove f = some s') :
    s'.k = s.k := by
  unfold LRUKReplacer.Remove at h
  split at h
  · cases h; rfl
  · split at h
    · cases h; rfl
    · cases h

/-- Evict preserves the replacer invariant. -/
theorem RInv_Evict {s : LRUKReplacer} (h : RInv s) : RInv (s.Evict).2 := by
  unfold LRUKReplacer.Evict
  cases hd : s.nodes.dropWhile (fun nd => !nd.evictable) with
  | nil => exact h
  | cons v post =>
      have hsplit := List.takeWhile_append_dropWhile (fun nd => !nd.evictable) s.nodes
      rw [hd] at hsplit
      refine ⟨?_, ?_⟩
      · show SortedNodes s.k (s.nodes.takeWhile (fun nd => !nd.evictable) ++ post)
        exact sorted_erase_middle (by rw [hsplit]; exact h.1)
      · intro nd hnd
        refine h.2 nd ?_
        rw [← hsplit]
        rcases List.mem_append.1 hnd with h1 | h1
        · exact List.mem_append_left _ h1
        · exact List.mem_append_right _ (List.mem_cons_of_mem _ h1)

/-- SetEvictable preserves the replacer invariant. -/
theorem RInv_SetEvictable {s : LRUKReplacer} {f : Nat} {b : Bool} (h : RInv s) :
    RInv (s.SetEvictable f b) := by
  unfold LRUKReplacer.SetEvictable
  cases hd : s.nodes.dropWhile (fun nd => nd.frame != f) with
  | nil => exact h
  | cons old post =>
      have hsplit := List.takeWhile_append_dropWhile (fun nd => nd.frame != f) s.nodes
      rw [hd] at hsplit
      refine ⟨?_, ?_⟩
      · have hsort : SortedNodes s.k
            (s.nodes.takeWhile (fun nd => nd.frame != f) ++ old :: post) := by
          rw [hsplit]; exact h.1
        show SortedNodes s.k (s.nodes.takeWhile (fun nd => nd.frame != f) ++
          { old with evictable := b } :: post)
        exact sorted_replace_middle hsort rfl
      · intro nd hnd
        rcases List.mem_append.1 hnd with h1 | h1
        · exact h.2 nd (by rw [← hsplit]; exact List.mem_append_left _ h1)
        · rcases List.mem_cons.1 h1 with rfl | h2
          · refine (h.2 old ?_).congr rfl
            rw [← hsplit]
            exact List.mem_append_right _ (List.mem_cons_self _ _)
          · exact h.2 nd
              (by rw [← hsplit]
                  exact List.mem_append_right _ (List.mem_cons_of_mem _ h2))

/-- Remove preserves the replacer invariant. -/
theorem RInv_Remove {s s' : LRUKReplacer} {f : Nat} (h : RInv s)
    (hr : s.Remove f = some s') : RInv s' := by
  unfold LRUKReplacer.Remove at hr
  split at hr
  · cases hr; exact h
  · rename_i old post hd
    have hsplit := List.takeWhile_append_dropWhile (fun nd => nd.frame != f) s.nodes
    rw [hd] at hsplit
    by_cases he : old.evictable = true
    · rw [if_pos he] at hr
      cases hr
      refine ⟨?_, ?_⟩
      · have hsort : SortedNodes s.k
            (s.nodes.takeWhile (fun nd => nd.frame != f) ++ old :: post) := by
          rw [hsplit]; exact h.1
        show SortedNodes s.k (s.nodes.takeWhile (fun nd => nd.frame != f) ++ post)
        exact sorted_erase_middle hsort
      · intro nd hnd
        refine h.2 nd ?_
        rw [← hsplit]
        rcases List.mem_append.1 hnd with h1 | h1
        · exact List.mem_append_left _ h1
        · exact List.mem_append_right _ (List.mem_cons_of_mem _ h1)
    · rw [if_neg he] at hr
      cases hr

/-- recordNodes keeps sortedness and history well-formedness (histories are
then bounded by the bumped timestamp). -/
theorem recordNodes_RInv {k ts : Nat} {nodes : List LRUKNode} (f : Nat)
    (hk : 1 ≤ k) (hs : SortedNodes k nodes) (hh : ∀ nd ∈ nodes, HistOK k ts nd) :
    SortedNodes k (recordNodes k ts nodes f) ∧
      ∀ nd ∈ recordNodes k ts nodes f, HistOK k (ts + 1) nd := by
  unfold recordNodes
  cases hd : nodes.dropWhile (fun nd => nd.frame != f) with
  | nil =>
      refine ⟨insertNode_sorted hs, ?_⟩
      intro nd hnd
      rcases mem_insertNode.1 hnd with rfl | hm
      · exact ⟨by simp, by simpa using hk, by simp, by simp⟩
      · exact (hh nd hm).mono (Nat.le_succ ts)
  | cons old post =>
      have hsplit := List.takeWhile_append_dropWhile (fun nd => nd.frame != f) nodes
      rw [hd] at hsplit
      have holdmem : old ∈ nodes := by
        rw [← hsplit]
        exact List.mem_append_right _ (List.mem_cons_self _ _)
      have hOld := hh old holdmem
      have hmono : nodeLE k old (pushHistory k old ts) = true :=
        pushHistory_key_mono hOld
      rw [← hsplit] at hs
      rw [SortedNodes, List.pairwise_append] at hs
      obtain ⟨hpreS, hconsS, hcross⟩ := hs
      obtain ⟨holdpost, hpostS⟩ := List.pairwise_cons.1 hconsS
      have hmemlift : ∀ nd, nd ∈ nodes.takeWhile (fun nd => nd.frame != f) ∨
          nd ∈ post → nd ∈ nodes := by
        intro nd hnd
        rw [← hsplit]
        rcases hnd with h1 | h1
        · exact List.mem_append_left _ h1
        · exact List.mem_append_right _ (List.mem_cons_of_mem _ h1)
      constructor
      · cases hc : nodeLTb k old (pushHistory k old ts)
        · simp only [hc, Bool.false_eq_true, if_false]
          have hback : nodeLE k (pushHistory k old ts) old = true :=
            nodeLE_of_not_lt hc
          rw [SortedNodes, List.pairwise_append]
          refine ⟨hpreS, List.pairwise_cons.2 ⟨?_, hpostS⟩, ?_⟩
          · intro m hm
            exact nodeLE_trans hback (holdpost m hm)
          · intro a ha b hb
            rcases List.mem_cons.1 hb with rfl | hb'
            · exact nodeLE_trans (hcross a ha old (List.mem_cons_self _ _)) hmono
            · exact hcross a ha b (List.mem_cons_of_mem _ hb')
        · simp only [hc, if_true]
          rw [SortedNodes, List.pairwise_append]
          refine ⟨hpreS, insertNode_sorted hpostS, ?_⟩
          intro a ha b hb
          rcases mem_insertNode.1 hb with rfl | hb'
          · exact nodeLE_trans (hcross a ha old (List.mem_cons_self _ _)) hmono
          · exact hcross a ha b (List.mem_cons_of_mem _ hb')
      · intro nd hnd
        rcases List.mem_append.1 hnd with h1 | h1
        · exact (hh nd (hmemlift nd (Or.inl h1))).mono (Nat.le_succ ts)
        · have hmemif : nd = pushHistory k old ts ∨ nd ∈ post := by
            cases hc : nodeLTb k old (pushHistory k old ts)
            · rw [hc] at h1
              simp only [Bool.false_eq_true, if_false] at h1
              exact List.mem_cons.1 h1
            · rw [hc] at h1
              simp only [if_true] at h1
              exact mem_insertNode.1 h1
          rcases hmemif with rfl | h2
          · exact pushHistory_histOK hk hOld
          · exact (hh nd (hmemlift nd (Or.inr h2))).mono (Nat.le_succ ts)

/-- RecordAccess preserves the replacer invariant. -/
theorem RInv_RecordAccess {s : LRUKReplacer} {f : Nat} (hk : 1 ≤ s.k)
    (h : RInv s) : RInv (s.RecordAccess f) := by
  have hrec := recordNodes_RInv f hk h.1 h.2
  unfold LRUKReplacer.RecordAccess
  split
  · exact RInv_Evict ⟨hrec.1, hrec.2⟩
  · exact ⟨hrec.1, hrec.2⟩

/-! ### Reachable replacer states and Evict correctness -/

/-- Steps never change the history depth. -/
theorem RStep_k {s s' : LRUKReplacer} (h : RStep s s') : s'.k = s.k := by
  cases h with
  | record f => exact RecordAccess_k s f
  | setEv f b => exact SetEvictable_k s f b
  | evict => exact Evict_k s
  | remove s'' f hr => exact Remove_k hr

/-- A reachable state still carries the k given at construction. -/
theorem RReachable_k {k n : Nat} {s : LRUKReplacer} (h : RReachable k n s) :
    s.k = k := by
  induction h with
  | init => rfl
  | step _ hstep ih => rw [RStep_k hstep, ih]

/-- Every reachable state satisfies the replacer invariant (for a depth
K of at least one, as the spec requires of the construction parameter). -/
theorem RReachable_RInv {k n : Nat} {s : LRUKReplacer} (hk : 1 ≤ k)
    (h : RReachable k n s) : RInv s := by
  induction h with
  | init => exact ⟨List.Pairwise.nil, fun nd hnd => absurd hnd (List.not_mem_nil nd)⟩
  | step hreach hstep ih =>
      cases hstep with
      | record f =>
          exact RInv_RecordAccess (by rw [RReachable_k hreach]; exact hk) ih
      | setEv f b => exact RInv_SetEvictable ih
      | evict => exact RInv_Evict ih
      | remove s'' f hr => exact RInv_Remove ih hr

/-- On a sorted node list a successful Evict returns the frame of an
evictable node that no other evictable node precedes in priority. -/
theorem Evict_some_spec {s : LRUKReplacer} {f : Nat} (hs : SortedNodes s.k s.nodes)
    (hf : (s.Evict).1 = some f) :
    ∃ nd ∈ s.nodes, nd.frame = f ∧ nd.evictable = true ∧
      ∀ m ∈ s.nodes, m.evictable = true → nodeLE s.k nd m = true := by
  unfold LRUKReplacer.Evict at hf
  cases hd : s.nodes.dropWhile (fun nd => !nd.evictable) with
  | nil => rw [hd] at hf; cases hf
  | cons v post =>
      rw [hd] at hf
      have hfr : v.frame = f := Option.some.inj hf
      have hsplit := List.takeWhile_append_dropWhile (fun nd => !nd.evictable) s.nodes
      rw [hd] at hsplit
      have hv : v.evictable = true := by
        have hx := dropWhile_head_false hd
        simpa using hx
      refine ⟨v, ?_, hfr, hv, ?_⟩
      · rw [← hsplit]
        exact List.mem_append_right _ (List.mem_cons_self _ _)
      · intro m hm hme
        rw [← hsplit] at hm hs
        rcases List.mem_append.1 hm with hmp | hmc
        · have hx := List.mem_takeWhile_imp hmp
          rw [hme] at hx
          cases hx
        · rw [SortedNodes, List.pairwise_append] at hs
          obtain ⟨_, h2, _⟩ := hs
          rcases List.mem_cons.1 hmc with rfl | hmp'
          · exact keyLEb_refl _
          · exact (List.pairwise_cons.1 h2).1 m hmp'

/-- A failed Evict means no node is evictable, and the state is returned
unchanged. -/
theorem Evict_none_spec {s : LRUKReplacer} (hf : (s.Evict).1 = none) :
    (∀ m ∈ s.nodes, m.evictable = false) ∧ (s.Evict).2 = s := by
  unfold LRUKReplacer.Evict at hf ⊢
  cases hd : s.nodes.dropWhile (fun nd => !nd.evictable) with
  | nil =>
      refine ⟨?_, rfl⟩
      intro m hm
      have hx := dropWhile_nil_all hd m hm
      simpa using hx
  | cons v post => rw [hd] at hf; cases hf

/-- Unfolding a nodeLE fact into the three ordering clauses of the
backward-K-distance discipline. -/
theorem nodeLE_clauses {k : Nat} {nd m : LRUKNode} (h : nodeLE k nd m = true) :
    (k ≤ nd.history.length → k ≤ m.history.length) ∧
    (nd.history.length < k → m.history.length < k →
       nd.history.headD 0 ≤ m.history.headD 0) ∧
    (k ≤ nd.history.length → k ≤ m.history.length →
       nd.history.getD (nd.history.length - k) 0 ≤
         m.history.getD (m.history.length - k) 0) := by
  unfold nodeLE at h
  rw [keyLEb_iff] at h
  unfold nodeKey at h
  by_cases h1 : nd.history.length < k
  · by_cases h2 : m.history.length < k
    · rw [if_pos h1, if_pos h2] at h
      dsimp only at h
      refine ⟨?_, ?_, ?_⟩ <;> omega
    · rw [if_pos h1, if_neg h2] at h
      dsimp only at h
      refine ⟨?_, ?_, ?_⟩ <;> omega
  · by_cases h2 : m.history.length < k
    · rw [if_neg h1, if_pos h2] at h
      dsimp only at h
      refine ⟨?_, ?_, ?_⟩ <;> omega
    · rw [if_neg h1, if_neg h2] at h
      dsimp only at h
      refine ⟨?_, ?_, ?_⟩ <;> omega

/-! ### Claim theorems -/

/-- C1: the claim says every successful FetchPage increments the pin
count of the frame, on a hit as well as on a miss.  The code fails it: with page 0
pinned once in frame 0, FetchPage(0) hits and returns frame 0, yet the pin
count stays at 1 instead of rising to 2. -/
theorem FetchPage_hit_leaves_pin_unchanged :
    (hitPool.pages 0).pinCount = 1 ∧
    (hitPool.FetchPage 0).map Prod.fst = some 0 ∧
    ((runOps hitPool [BPOp.fetch 0]).pages 0).pinCount = 1 := by
  decide

/-- C2: the claim says the page table stays injective because a FetchPage
eviction erases the entry of the victim before installing the new one.
The code fails it: FetchPage resets the page id of the frame before
erasing, so the
erase targets the new id and the stale entry survives; after NewPage,
UnpinPage(0, clean), FetchPage(1) on a one-frame pool, page ids 0 and 1
both map to frame 0. -/
theorem FetchPage_eviction_aliases_two_pages :
    ptLookup aliasPool.pageTable 0 = some 0 ∧
    ptLookup aliasPool.pageTable 1 = some 0 ∧ (0 : Int) ≠ 1 := by
  decide

/-- C3: the claim says all writes of NewPage into the frame array stay
inside [0, pool_size).  The code fails it: the free-list branch writes
pages_[*page_id], and after NewPage, UnpinPage, DeletePage on a one-frame
pool the next NewPage takes the free-list branch with page id 1, writing
index 1 in an array of size 1. -/
theorem NewPage_writes_frame_array_out_of_bounds :
    delFreedPool.NewPageWriteIdx = [1, 0] ∧
    delFreedPool.poolSize = 1 ∧
    (delFreedPool.NewPage).isSome = true ∧
    ∃ i ∈ delFreedPool.NewPageWriteIdx, delFreedPool.poolSize ≤ i := by
  decide

/-- C4: the claim says the round-trip law holds: bytes B written to a new
page, unpinned dirty, evicted, and fetched again come back as B.  The code
fails it: the dirty victim is written back correctly (disk page 0 holds
bytesAB), but the eviction inside FetchPage left the stale table entry
0 to frame 0, so the re-fetch hits that stale entry and returns the frame
now holding the zero bytes of page 1. -/
theorem roundTrip_refetch_loses_bytes :
    (dirtyPool.UnpinPage 0 true).1 = true ∧
    roundTripPool.disk 0 = bytesAB ∧
    (roundTripPool.FetchPage 0).map Prod.fst = some 0 ∧
    ((runOps roundTripPool [BPOp.fetch 0]).pages 0).data = zeroData ∧
    bytesAB ≠ zeroData := by
  refine ⟨by decide, rfl, by decide, rfl, by decide⟩

/-- C6: the claim says that with K = 2 and accesses A, B, A, C the first
Evict returns C.  Under the backward-K-distance ordering of the spec the
first victim is B (both B and C have a single access, and that of B is
older),
so the claim fails: the first eviction returns frame 1 (B), not 2 (C). -/
theorem lruk_scenario_first_evict_is_B_not_C :
    (lrukScenario.Evict).1 = some 1 ∧ (1 : Nat) ≠ 2 := by
  decide

/-- C6 (amended): with K = 2 and accesses A, B, A, C, all evictable, the
three successive evictions return B, then C, then A. -/
theorem lruk_scenario_evicts_B_C_A :
    (lrukScenario.Evict).1 = some 1 ∧
    ((lrukScenario.Evict).2.Evict).1 = some 2 ∧
    (((lrukScenario.Evict).2.Evict).2.Evict).1 = some 0 := by
  decide

/-- C7: the claim says DeletePage of a non-resident page returns true and
changes nothing.  The code does leave the state unchanged but returns
false, so the claim fails on the return value. -/
theorem DeletePage_absent_returns_false (s : BufferPoolManager) (pid : Int)
    (h : ptLookup s.pageTable pid = none) :
    s.DeletePage pid = some (false, s) := by
  unfold BufferPoolManager.DeletePage
  rw [h]

/-- Closed instance of DeletePage_absent_returns_false: deleting page 5
from a fresh one-frame pool returns false and the identical state. -/
theorem DeletePage_absent_returns_false_witness :
    ptLookup (BufferPoolManager.init 1 2).pageTable 5 = none ∧
    (BufferPoolManager.init 1 2).DeletePage 5 =
      some (false, BufferPoolManager.init 1 2) :=
  ⟨rfl, DeletePage_absent_returns_false (BufferPoolManager.init 1 2) 5 rfl⟩

/-- C9: the claim says the worker fires the completion signal with false
when the block operation errors.  The code fails it: the worker fires the
literal true after every operation; on a device that fails every access
the signal still carries true. -/
theorem worker_fires_true_despite_device_error :
    failingDisk.fails writeRequest.pageId = true ∧
    (DiskScheduler.processRequest failingDisk writeRequest).2.2 = true ∧
    (DiskScheduler.processRequest failingDisk writeRequest).2.2 ≠ false := by
  decide

/-- C9 (amended): the worker loop fires the one-shot completion
signal with true unconditionally, whether or not the block operation
succeeded. -/
theorem worker_signal_always_true (dm : DiskManager) (r : DiskRequest) :
    (DiskScheduler.processRequest dm r).2.2 = true := by
  unfold DiskScheduler.processRequest
  split <;> rfl

/-- C10: Remove on a frame the replacer does not track is a no-op at the
public interface: no abort, no curr_size change, node sequence and frame
map untouched. -/
theorem Remove_untracked_is_noop (s : LRUKReplacer) (f : Nat)
    (h : ∀ nd ∈ s.nodes, nd.frame ≠ f) :
    s.Remove f = some s := by
  unfold LRUKReplacer.Remove
  have hd : s.nodes.dropWhile (fun nd => nd.frame != f) = [] := by
    rw [List.dropWhile_eq_nil_iff]
    intro x hx
    simpa using h x hx
  rw [hd]

/-- Closed instance of Remove_untracked_is_noop: removing frame 0 from a
fresh replacer returns the identical state without tripping the
assertion. -/
theorem Remove_untracked_is_noop_witness :
    LRUKReplacer.Remove (LRUKReplacer.init 1 2) 0 = some (LRUKReplacer.init 1 2) :=
  Remove_untracked_is_noop (LRUKReplacer.init 1 2) 0
    (fun nd hnd => absurd hnd (List.not_mem_nil nd))

/-- C5: in every replacer state reachable through the public operations
(with construction parameter K at least 1, as the spec requires), a
successful Evict returns the frame of a tracked evictable node over which
no other evictable node has priority: if the victim has K or more recorded
accesses then so does every evictable node; among nodes with fewer than K
accesses the earliest access of the victim is oldest; among nodes with K
accesses the K-th most recent timestamp of the victim is smallest.  A failed
Evict means no tracked node is evictable and the state is unchanged. -/
theorem Evict_selects_highest_priority_victim (k n : Nat) (s : LRUKReplacer)
    (hk : 1 ≤ k) (hr : RReachable k n s) :
    (∀ f, (s.Evict).1 = some f →
      ∃ nd ∈ s.nodes, nd.frame = f ∧ nd.evictable = true ∧
        ∀ m ∈ s.nodes, m.evictable = true →
          ((k ≤ nd.history.length → k ≤ m.history.length) ∧
           (nd.history.length < k → m.history.length < k →
              nd.history.headD 0 ≤ m.history.headD 0) ∧
           (k ≤ nd.history.length → k ≤ m.history.length →
              nd.history.getD (nd.history.length - k) 0 ≤
                m.history.getD (m.history.length - k) 0)))
    ∧ ((s.Evict).1 = none →
        (∀ m ∈ s.nodes, m.evictable = false) ∧ (s.Evict).2 = s) := by
  have hkk := RReachable_k hr
  have hinv := RReachable_RInv hk hr
  constructor
  · intro f hf
    obtain ⟨nd, hmem, hfr, hev, hle⟩ := Evict_some_spec hinv.1 hf
    refine ⟨nd, hmem, hfr, hev, ?_⟩
    intro m hm hme
    have hcl := nodeLE_clauses (hle m hm hme)
    rw [hkk] at hcl
    exact hcl
  · exact fun hf => Evict_none_spec hf

/-- Closed instance of Evict_selects_highest_priority_victim at the
reachable state evictDemo (K = 2, 3 frames, accesses to frames 0 and 1,
frame 0 evictable). -/
theorem Evict_selects_highest_priority_victim_witness :
    (∀ f, (evictDemo.Evict).1 = some f →
      ∃ nd ∈ evictDemo.nodes, nd.frame = f ∧ nd.evictable = true ∧
        ∀ m ∈ evictDemo.nodes, m.evictable = true →
          ((2 ≤ nd.history.length → 2 ≤ m.history.length) ∧
           (nd.history.length < 2 → m.history.length < 2 →
              nd.history.headD 0 ≤ m.history.headD 0) ∧
           (2 ≤ nd.history.length → 2 ≤ m.history.length →
              nd.history.getD (nd.history.length - 2) 0 ≤
                m.history.getD (m.history.length - 2) 0)))
    ∧ ((evictDemo.Evict).1 = none →
        (∀ m ∈ evictDemo.nodes, m.evictable = false) ∧
          (evictDemo.Evict).2 = evictDemo) :=
  Evict_selects_highest_priority_victim 2 3 evictDemo (by decide)
    (RReachable.step
      (RReachable.step
        (RReachable.step RReachable.init (RStep.record (LRUKReplacer.init 3 2) 0))
        (RStep.record ((LRUKReplacer.init 3 2).RecordAccess 0) 1))
      (RStep.setEv (((LRUKReplacer.init 3 2).RecordAccess 0).RecordAccess 1) 0 true))

/-- Reading the updated slot of the frame array. -/
theorem writeFrame_same (pages : Nat → Page) (i : Nat) (p : Page) :
    writeFrame pages i p i = p := by
  simp [writeFrame]

/-- C8: UnpinPage returns false exactly on a non-resident page or a pin
count already at zero, changing nothing in that case; otherwise it returns
true, decrements the pin count by one, ORs the dirty bit with is_dirty
(never clearing an already-set bit), and touches the replacer exactly when
the decrement reaches zero, marking the frame evictable. -/
theorem UnpinPage_contract (s : BufferPoolManager) (pid : Int) (d : Bool) :
    ((s.UnpinPage pid d).1 = false ↔
        ptLookup s.pageTable pid = none ∨
          ∃ fid, ptLookup s.pageTable pid = some fid ∧ (s.pages fid).pinCount = 0) ∧
    ((s.UnpinPage pid d).1 = false → (s.UnpinPage pid d).2 = s) ∧
    (∀ fid, ptLookup s.pageTable pid = some fid → 0 < (s.pages fid).pinCount →
        (s.UnpinPage pid d).1 = true ∧
        ((s.UnpinPage pid d).2.pages fid).pinCount = (s.pages fid).pinCount - 1 ∧
        ((s.UnpinPage pid d).2.pages fid).isDirty = (d || (s.pages fid).isDirty) ∧
        ((s.UnpinPage pid d).2.replacer =
          if (s.pages fid).pinCount - 1 = 0 then s.replacer.SetEvictable fid true
          else s.replacer)) := by
  cases hl : ptLookup s.pageTable pid with
  | none =>
      have hu : s.UnpinPage pid d = (false, s) := by
        unfold BufferPoolManager.UnpinPage
        rw [hl]
      refine ⟨?_, fun _ => by rw [hu], ?_⟩
      · rw [hu]
        exact ⟨fun _ => Or.inl rfl, fun _ => rfl⟩
      · intro fid hf
        cases hf
  | some fid0 =>
      by_cases hz : (s.pages fid0).pinCount = 0
      · have hu : s.UnpinPage pid d = (false, s) := by
          unfold BufferPoolManager.UnpinPage
          rw [hl]
          dsimp only
          rw [if_pos hz]
        refine ⟨?_, fun _ => by rw [hu], ?_⟩
        · rw [hu]
          exact ⟨fun _ => Or.inr ⟨fid0, rfl, hz⟩, fun _ => rfl⟩
        · intro fid hf hpos
          cases hf
          omega
      · by_cases hz2 : (s.pages fid0).pinCount - 1 = 0
        · have hu : s.UnpinPage pid d =
              (true,
                { s with
                    pages := writeFrame s.pages fid0
                      { s.pages fid0 with
                          isDirty := d || (s.pages fid0).isDirty,
                          pinCount := (s.pages fid0).pinCount - 1 },
                    replacer := s.replacer.SetEvictable fid0 true }) := by
            unfold BufferPoolManager.UnpinPage
            rw [hl]
            dsimp only
            rw [if_neg hz, if_pos hz2]
          refine ⟨?_, ?_, ?_⟩
          · rw [hu]
            constructor
            · intro hx
              cases hx
            · intro hx
              rcases hx with hnone | ⟨fid, hf, hp⟩
              · cases hnone
              · cases hf
                exact absurd hp hz
          · intro hx
            rw [hu] at hx
            cases hx
          · intro fid hf hpos
            cases hf
            rw [hu]
            refine ⟨rfl, ?_, ?_, ?_⟩
            · show (writeFrame s.pages fid0
                { s.pages fid0 with
                    isDirty := d || (s.pages fid0).isDirty,
                    pinCount := (s.pages fid0).pinCount - 1 } fid0).pinCount =
                (s.pages fid0).pinCount - 1
              rw [writeFrame_same]
            · show (writeFrame s.pages fid0
                { s.pages fid0 with
                    isDirty := d || (s.pages fid0).isDirty,
                    pinCount := (s.pages fid0).pinCount - 1 } fid0).isDirty =
                (d || (s.pages fid0).isDirty)
              rw [writeFrame_same]
            · rw [if_pos hz2]
        · have hu : s.UnpinPage pid d =
              (true,
                { s with
                    pages := writeFrame s.pages fid0
                      { s.pages fid0 with
                          isDirty := d || (s.pages fid0).isDirty,
                          pinCount := (s.pages fid0).pinCount - 1 } }) := by
            unfold BufferPoolManager.UnpinPage
            rw [hl]
            dsimp only
            rw [if_neg hz, if_neg hz2]
          refine ⟨?_, ?_, ?_⟩
          · rw [hu]
            constructor
            · intro hx
              cases hx
            · intro hx
              rcases hx with hnone | ⟨fid, hf, hp⟩
              · cases hnone
              · cases hf
                exact absurd hp hz
          · intro hx
            rw [hu] at hx
            cases hx
          · intro fid hf hpos
            cases hf
            rw [hu]
            refine ⟨rfl, ?_, ?_, ?_⟩
            · show (writeFrame s.pages fid0
                { s.pages fid0 with
                    isDirty := d || (s.pages fid0).isDirty,
                    pinCount := (s.pages fid0).pinCount - 1 } fid0).pinCount =
                (s.pages fid0).pinCount - 1
              rw [writeFrame_same]
            · show (writeFrame s.pages fid0
                { s.pages fid0 with
                    isDirty := d || (s.pages fid0).isDirty,
                    pinCount := (s.pages fid0).pinCount - 1 } fid0).isDirty =
                (d || (s.pages fid0).isDirty)
              rw [writeFrame_same]
            · rw [if_neg hz2]

/-- Closed instance of UnpinPage_contract: unpinning page 0 of hitPool
(pin count 1) succeeds, drops the pin count to 0, keeps the frame clean,
and marks frame 0 evictable. -/
theorem UnpinPage_contract_witness :
    (hitPool.UnpinPage 0 false).1 = true ∧
    ((hitPool.UnpinPage 0 false).2.pages 0).pinCount = 0 ∧
    ((hitPool.UnpinPage 0 false).2.pages 0).isDirty =
      (false || (hitPool.pages 0).isDirty) ∧
    (hitPool.UnpinPage 0 false).2.replacer =
      hitPool.replacer.SetEvictable 0 true := by
  have h := (UnpinPage_contract hitPool 0 false).2.2 0 (by decide) (by decide)
  refine ⟨h.1, ?_, h.2.2.1, ?_⟩
  · rw [h.2.1]
    decide
  · rw [h.2.2.2, if_pos (show (hitPool.pages 0).pinCount - 1 = 0 by decide)]
